import Mathlib

/-!
# paperstorage — formal model and verification

A shallow embedding of the `paperstorage` paper-backup tool: the CLI driver
(`paperstorage/__main__.py`) is translated directly from its source; the core
codec and reconstruction engine (the `PaperStorage` class, imported by the CLI
but not part of the checked sources) is modelled from the specification.
Bytes are `Nat` values below 256; text is `List Char`.
-/

namespace Paperstorage

/-! ## Hexadecimal binary-to-text encoding

Modelled from the spec: the wire format encodes the raw payload in an
ASCII-safe binary-to-text scheme ("base64 (or equivalent ASCII-safe)");
we fix the equivalent scheme of two lowercase hex digits per byte, which
also matches the hex rendering of the content digest.
-/

/-- One hex digit character for a value below 16 (lowercase). -/
def hexDigitChar (v : Nat) : Char :=
  if v < 10 then Char.ofNat (48 + v) else Char.ofNat (87 + v)

/-- Hex-encode a byte list, two characters per byte. -/
def hexEncode (bs : List Nat) : List Char :=
  bs.flatMap (fun b => [hexDigitChar (b / 16), hexDigitChar (b % 16)])

/-- Value of a single hex digit character, `none` for non-hex characters. -/
def hexVal (c : Char) : Option Nat :=
  if 48 ≤ c.toNat ∧ c.toNat ≤ 57 then some (c.toNat - 48)
  else if 97 ≤ c.toNat ∧ c.toNat ≤ 102 then some (c.toNat - 87)
  else none

/-- Hex-decode a character list; fails on odd length or non-hex characters. -/
def hexDecode : List Char → Option (List Nat)
  | [] => some []
  | c1 :: c2 :: rest =>
    match hexVal c1, hexVal c2, hexDecode rest with
    | some h, some l, some bs => some ((h * 16 + l) :: bs)
    | _, _, _ => none
  | [_] => none

/-! ## Decimal numerals

Modelled from the spec: chunk count and chunk index appear in the wire record
as plain integers, rendered in decimal as `str(n)` would.
-/

/-- Decimal digit character for a value below 10. -/
def decDigitChar (d : Nat) : Char := Char.ofNat (48 + d)

/-- Decimal rendering of a natural number, most significant digit first. -/
def natToChars (n : Nat) : List Char :=
  if n = 0 then ['0'] else ((Nat.digits 10 n).reverse).map decDigitChar

/-- Parse one decimal digit character. -/
def decVal (c : Char) : Option Nat :=
  if 48 ≤ c.toNat ∧ c.toNat ≤ 57 then some (c.toNat - 48) else none

/-- Parse a non-empty all-digit character list as a decimal natural number. -/
def charsToNat (cs : List Char) : Option Nat :=
  if cs = [] then none
  else cs.foldl (fun acc c =>
    match acc, decVal c with
    | some a, some d => some (a * 10 + d)
    | _, _ => none) (some 0)

/-! ## Field splitting

Modelled from the spec: the wire record is a sequence of fields separated by a
delimiter guaranteed absent from the encoding alphabet and from hex digests;
we fix the delimiter as the bar character.
-/

/-- Split a character list on every occurrence of the delimiter `d`. -/
def splitOnDelim (d : Char) : List Char → List (List Char)
  | [] => [[]]
  | c :: cs =>
    if c = d then [] :: splitOnDelim d cs
    else
      match splitOnDelim d cs with
      | [] => [[c]]
      | f :: rest => (c :: f) :: rest

/-! ## SHA-256

Modelled from the spec: the content hash is the cryptographic 256-bit digest
of the complete original byte stream; the CLI source computes it with
`hashlib.sha256(...).hexdigest()`. Words are `Nat` values reduced modulo
`2 ^ 32` at every arithmetic step.
-/

/-- `2 ^ 32`, the word modulus. -/
def M32 : Nat := 4294967296

/-- Rotate a 32-bit word right by `n` bits. -/
def rotr32 (n x : Nat) : Nat := ((x >>> n) ||| (x <<< (32 - n))) % M32

/-- SHA-256 small sigma 0. -/
def ssig0 (x : Nat) : Nat := (rotr32 7 x) ^^^ (rotr32 18 x) ^^^ (x >>> 3)

/-- SHA-256 small sigma 1. -/
def ssig1 (x : Nat) : Nat := (rotr32 17 x) ^^^ (rotr32 19 x) ^^^ (x >>> 10)

/-- SHA-256 big sigma 0. -/
def bsig0 (x : Nat) : Nat := (rotr32 2 x) ^^^ (rotr32 13 x) ^^^ (rotr32 22 x)

/-- SHA-256 big sigma 1. -/
def bsig1 (x : Nat) : Nat := (rotr32 6 x) ^^^ (rotr32 11 x) ^^^ (rotr32 25 x)

/-- The eight 32-bit working variables of the compression function. -/
structure Sha256State where
  a : Nat
  b : Nat
  c : Nat
  d : Nat
  e : Nat
  f : Nat
  g : Nat
  h : Nat

/-- Initial hash value (fractional parts of square roots of the first 8 primes). -/
def sha256Init : Sha256State :=
  ⟨1779033703, 3144134277, 1013904242, 2773480762,
   1359893119, 2600822924, 528734635, 1541459225⟩

/-- Round constants (fractional parts of cube roots of the first 64 primes). -/
def K256 : List Nat :=
  [1116352408, 1899447441, 3049323471, 3921009573,
   961987163, 1508970993, 2453635748, 2870763221,
   3624381080, 310598401, 607225278, 1426881987,
   1925078388, 2162078206, 2614888103, 3248222580,
   3835390401, 4022224774, 264347078, 604807628,
   770255983, 1249150122, 1555081692, 1996064986,
   2554220882, 2821834349, 2952996808, 3210313671,
   3336571891, 3584528711, 113926993, 338241895,
   666307205, 773529912, 1294757372, 1396182291,
   1695183700, 1986661051, 2177026350, 2456956037,
   2730485921, 2820302411, 3259730800, 3345764771,
   3516065817, 3600352804, 4094571909, 275423344,
   430227734, 506948616, 659060556, 883997877,
   958139571, 1322822218, 1537002063, 1747873779,
   1955562222, 2024104815, 2227730452, 2361852424,
   2428436474, 2756734187, 3204031479, 3329325298]

/-- Group a byte list into 32-bit words, big-endian, dropping any remainder. -/
def bytesToWords : List Nat → List Nat
  | b0 :: b1 :: b2 :: b3 :: rest =>
    (((b0 * 256 + b1) * 256 + b2) * 256 + b3) :: bytesToWords rest
  | _ => []

/-- Extend the 16 message words of one block to the 64-entry message schedule. -/
def schedule (ws : List Nat) : List Nat :=
  (List.range 48).foldl (fun acc _ =>
    let n := acc.length
    acc ++ [(ssig1 (acc.getD (n - 2) 0) + acc.getD (n - 7) 0 +
             ssig0 (acc.getD (n - 15) 0) + acc.getD (n - 16) 0) % M32]) ws

/-- One round of the SHA-256 compression function. -/
def sha256Round (st : Sha256State) (k w : Nat) : Sha256State :=
  let ch := (st.e &&& st.f) ^^^ ((st.e ^^^ (M32 - 1)) &&& st.g)
  let maj := (st.a &&& st.b) ^^^ (st.a &&& st.c) ^^^ (st.b &&& st.c)
  let t1 := (st.h + bsig1 st.e + ch + k + w) % M32
  let t2 := (bsig0 st.a + maj) % M32
  ⟨(t1 + t2) % M32, st.a, st.b, st.c, (st.d + t1) % M32, st.e, st.f, st.g⟩

/-- Compress one 64-byte block into the running hash state. -/
def compressBlock (st0 : Sha256State) (block : List Nat) : Sha256State :=
  let ws := schedule (bytesToWords block)
  let st := (K256.zip ws).foldl (fun s kw => sha256Round s kw.1 kw.2) st0
  ⟨(st0.a + st.a) % M32, (st0.b + st.b) % M32, (st0.c + st.c) % M32,
   (st0.d + st.d) % M32, (st0.e + st.e) % M32, (st0.f + st.f) % M32,
   (st0.g + st.g) % M32, (st0.h + st.h) % M32⟩

/-- Big-endian 8-byte rendering of the bit length. -/
def lengthBytes64 (n : Nat) : List Nat :=
  (List.range 8).map (fun i => n / 2 ^ (8 * (7 - i)) % 256)

/-- Pad a message to a multiple of 64 bytes (0x80, zeros, 64-bit bit length). -/
def padMessage (msg : List Nat) : List Nat :=
  let l := msg.length
  let k := (119 - l % 64) % 64
  msg ++ [128] ++ List.replicate k 0 ++ lengthBytes64 (8 * l)

/-- Split a padded message into its 64-byte blocks. -/
def toBlocks (padded : List Nat) : List (List Nat) :=
  (List.range (padded.length / 64)).map (fun i => (padded.drop (i * 64)).take 64)

/-- Big-endian 4-byte rendering of a 32-bit word. -/
def wordBytes (w : Nat) : List Nat :=
  [w / 16777216 % 256, w / 65536 % 256, w / 256 % 256, w % 256]

/-- SHA-256 digest of a byte list, as 32 bytes. -/
def sha256 (msg : List Nat) : List Nat :=
  let st := (toBlocks (padMessage msg)).foldl compressBlock sha256Init
  wordBytes st.a ++ wordBytes st.b ++ wordBytes st.c ++ wordBytes st.d ++
  wordBytes st.e ++ wordBytes st.f ++ wordBytes st.g ++ wordBytes st.h

/-- SHA-256 digest of a byte list, as its 64-character lowercase hex string,
matching `hashlib.sha256(data).hexdigest()`. -/
def sha256hex (msg : List Nat) : List Char := hexEncode (sha256 msg)

/-! ## BackupManifest and the wire record

Modelled from the spec: the manifest's identifying fields carried by every
chunk are `(identifier, contentHash, chunkCount)`; the wire record is a
version tag, the identifier, the content-hash hex string, the chunk count,
the chunk index and the encoded payload, delimiter-separated.
-/

/-- The identifying metadata of one backup, as embedded in every chunk.
Modelled from the spec: `matches` compares exactly the triple
`(identifier, contentHash, chunkCount)`. -/
structure Manifest where
  identifier : List Nat
  contentHash : List Char
  chunkCount : Nat
deriving DecidableEq

/-- Structural equality on the identifying triple (spec §4.2 `matches`). -/
def Manifest.matches (m other : Manifest) : Bool :=
  decide (m.identifier = other.identifier) &&
  decide (m.contentHash = other.contentHash) &&
  decide (m.chunkCount = other.chunkCount)

/-- Format-version tag of the wire record. -/
def versionTag : List Char := ['P', 'S', '1']

/-- Serialize one chunk together with its manifest's identifying fields
(spec §4.1 `serialize`): version tag, identifier, content hash, chunk count,
chunk index and hex-encoded payload, separated by the bar delimiter. -/
def serializeChunk (m : Manifest) (idx : Nat) (payload : List Nat) : List Char :=
  versionTag ++ '|' :: hexEncode m.identifier ++ '|' :: m.contentHash ++
  '|' :: natToChars m.chunkCount ++ '|' :: natToChars idx ++ '|' :: hexEncode payload

/-- Tolerant wire-record decoder (spec §4.1 `deserialize`): any malformed,
truncated or wrong-field-count string yields `none` rather than crashing. -/
def deserializeChunk (text : List Char) : Option (Manifest × Nat × List Nat) :=
  match splitOnDelim '|' text with
  | [v, idf, hsh, cnt, idx, pl] =>
    if v = versionTag then
      match hexDecode idf, charsToNat cnt, charsToNat idx, hexDecode pl with
      | some idb, some c, some i, some p => some (⟨idb, hsh, c⟩, i, p)
      | _, _, _, _ => none
    else none
  | _ => none

/-! ## ChunkCodec

Modelled from the spec: `split` cuts the byte stream into `chunkCount`
successive slices of at most `blockSize` bytes; `chunkCount` is
`ceil(totalLength / chunkSize)` with a minimum of 1 (an empty input still
yields one empty chunk).
-/

/-- `ceil(totalLength / blockSize)`, minimum 1. -/
def chunkCount (totalLength blockSize : Nat) : Nat :=
  max 1 ((totalLength + blockSize - 1) / blockSize)

/-- Split a byte stream into its indexed chunks (spec §4.1 `split`). -/
def splitChunks (data : List Nat) (blockSize : Nat) : List (Nat × List Nat) :=
  (List.range (chunkCount data.length blockSize)).map
    (fun i => (i, (data.drop (i * blockSize)).take blockSize))

/-- Derive the manifest of a backup from its data (spec §4.2 `fromData`). -/
def manifestFromData (data : List Nat) (identifier : List Nat)
    (blockSize : Nat) : Manifest :=
  ⟨identifier, sha256hex data, chunkCount data.length blockSize⟩

/-- Valid chunk sizes (spec §3: 50 to 1500 inclusive, multiples of 50). -/
def validBlockSize (b : Nat) : Bool :=
  decide (50 ≤ b) && decide (b ≤ 1500) && (b % 50 == 0)

/-! ## ReconstructionSession

Modelled from the spec: the `PaperStorage` object used by the CLI holds an
optional manifest (unset until the first structurally valid chunk) and a
sparse index-keyed collection of received payloads. Ingestion is the state
transition of spec §4.3; re-ingesting an index is last-write-wins, so the
collection is an association list with the newest binding in front.
-/

/-- The discriminated outcome of one ingest call (spec §4.3). -/
inductive IngestOutcome
  | accepted
  | duplicate
  | rejected
  | malformed
deriving DecidableEq

/-- The reconstruction session state of the `PaperStorage` object. -/
structure PaperStorage where
  manifest : Option Manifest
  received : List (Nat × List Nat)

/-- A fresh, empty session (`PaperStorage()` in the CLI). -/
def PaperStorage.init : PaperStorage := ⟨none, []⟩

/-- Ingest one decoded QR string (spec §4.3 `ingest`, the CLI's
`restoreFromQRString`): deserialize, fix or match the manifest, then record
the payload under its index. -/
def PaperStorage.restoreFromQRString (ps : PaperStorage) (text : List Char) :
    PaperStorage × IngestOutcome :=
  match deserializeChunk text with
  | none => (ps, .malformed)
  | some (m, idx, payload) =>
    match ps.manifest with
    | none => (⟨some m, (idx, payload) :: ps.received⟩, .accepted)
    | some m0 =>
      if m0.matches m then
        if ps.received.lookup idx = some payload then (ps, .duplicate)
        else (⟨some m0, (idx, payload) :: ps.received⟩, .accepted)
      else (ps, .rejected)

/-- Ingest a batch of decoded strings in order. -/
def PaperStorage.ingestAll (ps : PaperStorage) (texts : List (List Char)) :
    PaperStorage :=
  texts.foldl (fun s t => (s.restoreFromQRString t).1) ps

/-- Completeness check (spec §4.3 `isComplete`, the CLI's `isDataReady`):
the manifest is fixed and every index below `chunkCount` has been received. -/
def PaperStorage.isDataReady (ps : PaperStorage) : Bool :=
  match ps.manifest with
  | none => false
  | some m => (List.range m.chunkCount).all (fun i => (ps.received.lookup i).isSome)

/-- Missing-index query (spec §4.3 `missingIndices`, the CLI's
`getMissingDataBlocks`). Modelled from the spec: with the manifest set it
returns the ascending indices below `chunkCount` not yet received; for the
manifest-unset case §9 records the observed behaviour of the reference CLI
flow, which receives the collapsed empty list and disambiguates it by
checking completeness first, so the unset case returns the empty list. -/
def PaperStorage.getMissingDataBlocks (ps : PaperStorage) : List Nat :=
  match ps.manifest with
  | none => []
  | some m => (List.range m.chunkCount).filter (fun i => (ps.received.lookup i).isNone)

/-- Assembly (spec §4.3 `assemble`, the CLI's `getData`): `none` unless
complete, otherwise the payloads concatenated in index order. -/
def PaperStorage.getData (ps : PaperStorage) : Option (List Nat) :=
  match ps.manifest with
  | none => none
  | some m =>
    if ps.isDataReady then
      some ((List.range m.chunkCount).map
        (fun i => (ps.received.lookup i).getD [])).flatten
    else none

/-- Integrity verification (spec §4.3 `verify`; CLI line 56 compares
`hashlib.sha256(ps.getData()).hexdigest()` with the stored digest):
recompute the digest of the assembled buffer and compare it to the
manifest's content hash. -/
def PaperStorage.verify (ps : PaperStorage) (data : List Nat) : Bool :=
  match ps.manifest with
  | none => false
  | some m => decide (sha256hex data = m.contentHash)

/-- Serialize every chunk of a backup: the `serialize_all(split(D, S))`
composition of the round-trip property. -/
def encodeAll (data identifier : List Nat) (bs : Nat) : List (List Char) :=
  (splitChunks data bs).map
    (fun ip => serializeChunk (manifestFromData data identifier bs) ip.1 ip.2)

/-! ## CLI driver (`paperstorage/__main__.py`)

The interactive driver is translated from the source: argparse option
validation, folder-based restore, the interactive restore loop, the hash
check before saving, the filename prompt loop, and the menu dispatch.
-/

/-- Python's `range(start, stop, step)` for a positive step. -/
def pythonRange (start stop step : Int) : List Int :=
  (List.range ((stop - start + step - 1) / step).toNat).map
    (fun k : Nat => start + step * (k : Int))

/-- The accepted `-b` blocksize values: `choices=range(50, 1501, 50)`
(source line 84). -/
def blocksizeChoices : List Int := pythonRange 50 1501 50

/-- The `-b` default: `default=1500` (source line 84). -/
def blocksizeDefault : Int := 1500

/-- Page position of a chunk index. Modelled from the spec (§4.4
PageLayoutPlanner): cover page is position 1, chunk `index` occupies
position `index + 2`. -/
def pagePositionOfChunk (idx : Nat) : Nat := idx + 2

/-- The page numbers printed in the rescan message:
`str(n + 2) for n in _ps.getMissingDataBlocks()` (source line 53). -/
def rescanPageStrings (missing : List Nat) : List (List Char) :=
  missing.map (fun n => natToChars (n + 2))

/-- The comma-joined rescan page list (source line 53). -/
def rescanMessage (missing : List Nat) : List Char :=
  List.intercalate [','] (rescanPageStrings missing)

/-- One directory entry as seen by `__restoreFromFolder`: not a regular file
(skipped by the `isfile` check), not a readable image
(`PIL.UnidentifiedImageError`, skipped), or an image whose recognized codes
decoded to the given ASCII strings (`pyzbar.decode`). -/
inductive FolderEntry
  | notAFile
  | notAnImage
  | image (codes : List (List Char))

/-- The decoded payload strings an entry contributes. -/
def decodeEntry : FolderEntry → List (List Char)
  | .notAFile => []
  | .notAnImage => []
  | .image codes => codes

/-- Process one directory entry (`__restoreFromFolder` loop body, source
lines 32-39): skip non-files and unreadable images, ingest every decoded
code string of an image. -/
def restoreFromFolderEntry (s : PaperStorage) : FolderEntry → PaperStorage
  | .notAFile => s
  | .notAnImage => s
  | .image codes => s.ingestAll codes

/-- `__restoreFromFolder` (source lines 18-40): start from a fresh session
when `ps is None`, then process every directory entry in order. -/
def restoreFromFolder (ps : Option PaperStorage) (entries : List FolderEntry) :
    PaperStorage :=
  entries.foldl restoreFromFolderEntry (ps.getD PaperStorage.init)

/-- The decision taken at the top of each `__interactiveFolder` loop
iteration (source lines 49-54). -/
inductive LoopAction
  | exitReady
  | quitNoValidCodes
  | promptRescan (message : List Char)
deriving DecidableEq

/-- One decision of the `__interactiveFolder` restore loop (source lines
49-54): exit when the data is ready; otherwise quit with "No valid QR-Codes
found" when the missing-block list is empty; otherwise prompt for a rescan
of the listed pages. -/
def interactiveLoopStep (ps : PaperStorage) : LoopAction :=
  if ps.isDataReady then .exitReady
  else if ps.getMissingDataBlocks = [] then .quitNoValidCodes
  else .promptRescan (rescanMessage ps.getMissingDataBlocks)

/-- Outcome of the save step of `__interactiveFolder` (source lines 56-68):
whether the hash-mismatch warning was printed, and the bytes written to the
output file (`none` models the crash before any write when the file handle
was never bound). -/
structure FinishOutcome where
  hashWarning : Bool
  written : Option (List Nat)
deriving DecidableEq

/-- The save step of `__interactiveFolder` (source lines 56-68): warn iff
`_ps._sha256 != hashlib.sha256(_ps.getData()).hexdigest()`, then write the
assembled data when the output file opened, and crash with an unbound
`_file` otherwise. -/
def interactiveFinish (sha256Stored : List Char) (data : List Nat)
    (openOk : Bool) : FinishOutcome :=
  { hashWarning := decide (sha256Stored ≠ sha256hex data),
    written := if openOk then some data else none }

/-- One body execution of the filename prompt loop (source lines 61-66):
`some handle` means the body reached its unconditional `break` with the
handle bound iff `open` succeeded; `none` would mean `continue`, which no
path of the body produces. -/
def saveLoopBody (openOk : Bool) : Option (Option Unit) :=
  some (if openOk then some () else none)

/-- Run the `while (True)` filename loop (source lines 60-66) against the
stream of open results, counting iterations, until a body breaks. -/
def saveLoopGo : List Bool → Nat → Nat × Option (Option Unit)
  | [], k => (k, none)
  | openOk :: rest, k =>
    match saveLoopBody openOk with
    | some handle => (k + 1, some handle)
    | none => saveLoopGo rest (k + 1)

/-- The filename prompt loop of `__interactiveFolder` (source lines 60-66). -/
def savePromptLoop (opens : List Bool) : Nat × Option (Option Unit) :=
  saveLoopGo opens 0

/-- `_file.write(_ps.getData())` after the loop (source line 67): with no
handle bound, the write raises (`none`); otherwise the data is written. -/
def writeAfterLoop (handle : Option Unit) (data : List Nat) : Option (List Nat) :=
  match handle with
  | some _ => some data
  | none => none

/-- How an interactive-restore path ends: entering the folder restore,
raising `NotImplementedError`, or falling through to the end of `main`. -/
inductive RestoreFlow
  | folderRestore
  | raiseNotImplemented
  | exitFlow
deriving DecidableEq

/-- Python's `str.startswith('y')` on an interactive answer. -/
def startsWithY : List Char → Bool
  | 'y' :: _ => true
  | _ => false

/-- The guided step-by-step flow (menu choice 3, source lines 115-131):
scanner → folder restore; else smartphone → folder restore; else webcam →
`raise NotImplementedError('TODO')`; else folder restore. -/
def guidedFlow (scanner smartphone webcam : List Char) : RestoreFlow :=
  if startsWithY scanner then .folderRestore
  else if startsWithY smartphone then .folderRestore
  else if startsWithY webcam then .raiseNotImplemented
  else .folderRestore

/-- The interactive-restore menu dispatch (source lines 109-131): choice 1 →
folder restore, choice 2 → `raise NotImplementedError('TODO')`, choice 3 →
guided flow, anything else → fall through. -/
def menuDispatch (choice : Int) (scanner smartphone webcam : List Char) :
    RestoreFlow :=
  if choice = 1 then .folderRestore
  else if choice = 2 then .raiseNotImplemented
  else if choice = 3 then guidedFlow scanner smartphone webcam
  else .exitFlow

/-! ## The claims -/

theorem hexVal_hexDigitChar {v : Nat} (h : v < 16) :
    hexVal (hexDigitChar v) = some v := by
  revert v h
  decide

theorem hexDigitChar_ne_bar {v : Nat} (h : v < 16) : hexDigitChar v ≠ '|' := by
  revert v h
  decide

theorem hexDecode_hexEncode {bs : List Nat} (h : ∀ b ∈ bs, b < 256) :
    hexDecode (hexEncode bs) = some bs := by
  induction bs with
  | nil => rfl
  | cons b rest ih =>
    have hb : b < 256 := h b (List.mem_cons_self _ _)
    have hhi : b / 16 < 16 := Nat.div_lt_of_lt_mul (by omega)
    have hlo : b % 16 < 16 := Nat.mod_lt _ (by omega)
    have hrest : hexDecode (hexEncode rest) = some rest :=
      ih (fun x hx => h x (List.mem_cons_of_mem _ hx))
    have hb2 : b / 16 * 16 + b % 16 = b := by omega
    simp only [hexEncode, List.flatMap_cons, List.cons_append, List.nil_append]
    simp only [hexEncode] at hrest
    simp only [hexDecode, hexVal_hexDigitChar hhi, hexVal_hexDigitChar hlo, hrest, hb2]

theorem mem_hexEncode_ne_bar {bs : List Nat} (h : ∀ b ∈ bs, b < 256)
    {c : Char} (hc : c ∈ hexEncode bs) : c ≠ '|' := by
  induction bs with
  | nil => simp [hexEncode] at hc
  | cons b rest ih =>
    have hb : b < 256 := h b (List.mem_cons_self _ _)
    simp only [hexEncode, List.flatMap_cons, List.cons_append, List.nil_append,
      List.mem_cons] at hc
    rcases hc with hc | hc | hc
    · exact hc ▸ hexDigitChar_ne_bar (Nat.div_lt_of_lt_mul (by omega))
    · exact hc ▸ hexDigitChar_ne_bar (Nat.mod_lt _ (by omega))
    · exact ih (fun x hx => h x (List.mem_cons_of_mem _ hx)) hc

theorem decVal_decDigitChar {d : Nat} (h : d < 10) :
    decVal (decDigitChar d) = some d := by
  revert d h
  decide

theorem decDigitChar_ne_bar {d : Nat} (h : d < 10) : decDigitChar d ≠ '|' := by
  revert d h
  decide

theorem foldl_digits_rev (ds : List Nat) (a : Nat) (hall : ∀ d ∈ ds, d < 10) :
    ((ds.reverse.map decDigitChar).foldl (fun acc c =>
      match acc, decVal c with
      | some a, some d => some (a * 10 + d)
      | _, _ => none) (some a)) =
    some (a * 10 ^ ds.length + Nat.ofDigits 10 ds) := by
  induction ds generalizing a with
  | nil => simp
  | cons d rest ih =>
    have hd : d < 10 := hall d (List.mem_cons_self _ _)
    have hrest : ∀ x ∈ rest, x < 10 := fun x hx => hall x (List.mem_cons_of_mem _ hx)
    simp only [List.reverse_cons, List.map_append, List.foldl_append, List.map_cons,
      List.map_nil, List.foldl_cons, List.foldl_nil]
    rw [ih a hrest]
    simp only [decVal_decDigitChar hd, Nat.ofDigits_cons, List.length_cons]
    congr 1
    ring

theorem charsToNat_natToChars (n : Nat) : charsToNat (natToChars n) = some n := by
  by_cases h0 : n = 0
  · subst h0
    rfl
  · have hne : Nat.digits 10 n ≠ [] := Nat.digits_ne_nil_iff_ne_zero.mpr h0
    have hlt : ∀ d ∈ Nat.digits 10 n, d < 10 :=
      fun d hd => Nat.digits_lt_base (by norm_num) hd
    have hlistne : (Nat.digits 10 n).reverse.map decDigitChar ≠ [] := by
      simp [hne]
    rw [natToChars, if_neg h0, charsToNat, if_neg hlistne,
      foldl_digits_rev _ 0 hlt]
    simp [Nat.ofDigits_digits]

theorem mem_natToChars (n : Nat) {c : Char} (hc : c ∈ natToChars n) :
    ∃ d, d < 10 ∧ c = decDigitChar d := by
  by_cases h0 : n = 0
  · subst h0
    simp [natToChars] at hc
    exact ⟨0, by norm_num, hc⟩
  · simp only [natToChars, if_neg h0, List.mem_map, List.mem_reverse] at hc
    obtain ⟨d, hd, rfl⟩ := hc
    exact ⟨d, Nat.digits_lt_base (by norm_num) hd, rfl⟩

theorem mem_natToChars_ne_bar (n : Nat) {c : Char} (hc : c ∈ natToChars n) :
    c ≠ '|' := by
  obtain ⟨d, hd, rfl⟩ := mem_natToChars n hc
  exact decDigitChar_ne_bar hd

theorem splitOnDelim_ne_nil (d : Char) (cs : List Char) : splitOnDelim d cs ≠ [] := by
  induction cs with
  | nil => simp [splitOnDelim]
  | cons c cs ih =>
    by_cases h : c = d
    · simp [splitOnDelim, h]
    · simp only [splitOnDelim, if_neg h]
      cases hs : splitOnDelim d cs with
      | nil => simp
      | cons f rest => simp

theorem splitOnDelim_of_not_mem {d : Char} {xs : List Char} (h : d ∉ xs) :
    splitOnDelim d xs = [xs] := by
  induction xs with
  | nil => rfl
  | cons c cs ih =>
    have hc : c ≠ d := fun he => h (he ▸ List.mem_cons_self _ _)
    have hcs : d ∉ cs := fun hm => h (List.mem_cons_of_mem _ hm)
    simp only [splitOnDelim, if_neg hc, ih hcs]

theorem splitOnDelim_append_delim {d : Char} {xs : List Char} (h : d ∉ xs)
    (ys : List Char) :
    splitOnDelim d (xs ++ d :: ys) = xs :: splitOnDelim d ys := by
  induction xs with
  | nil => simp [splitOnDelim]
  | cons c cs ih =>
    have hc : c ≠ d := fun he => h (he ▸ List.mem_cons_self _ _)
    have hcs : d ∉ cs := fun hm => h (List.mem_cons_of_mem _ hm)
    show (if c = d then _ else
      match splitOnDelim d (cs ++ d :: ys) with
      | [] => [[c]]
      | f :: rest => (c :: f) :: rest) = (c :: cs) :: splitOnDelim d ys
    rw [if_neg hc, ih hcs]

theorem sha256_length (msg : List Nat) : (sha256 msg).length = 32 := by
  simp [sha256, wordBytes]

theorem sha256_lt (msg : List Nat) : ∀ b ∈ sha256 msg, b < 256 := by
  intro b hb
  simp only [sha256, wordBytes, List.mem_append, List.mem_cons,
    List.not_mem_nil, or_false] at hb
  omega

theorem hexEncode_length (bs : List Nat) : (hexEncode bs).length = 2 * bs.length := by
  induction bs with
  | nil => rfl
  | cons b rest ih =>
    simp only [hexEncode, List.flatMap_cons] at *
    simp [ih]
    omega

theorem sha256hex_length (msg : List Nat) : (sha256hex msg).length = 64 := by
  rw [sha256hex, hexEncode_length, sha256_length]

theorem sha256hex_ne_bar (msg : List Nat) {c : Char} (hc : c ∈ sha256hex msg) :
    c ≠ '|' :=
  mem_hexEncode_ne_bar (sha256_lt msg) hc

theorem deserializeChunk_serializeChunk (m : Manifest) (idx : Nat)
    (payload : List Nat)
    (hid : ∀ b ∈ m.identifier, b < 256)
    (hp : ∀ b ∈ payload, b < 256)
    (hh : ∀ c ∈ m.contentHash, c ≠ '|') :
    deserializeChunk (serializeChunk m idx payload) = some (m, idx, payload) := by
  have h1 : '|' ∉ versionTag := by decide
  have h2 : '|' ∉ hexEncode m.identifier :=
    fun hm => (mem_hexEncode_ne_bar hid hm) rfl
  have h3 : '|' ∉ m.contentHash := fun hm => (hh _ hm) rfl
  have h4 : '|' ∉ natToChars m.chunkCount :=
    fun hm => (mem_natToChars_ne_bar _ hm) rfl
  have h5 : '|' ∉ natToChars idx := fun hm => (mem_natToChars_ne_bar _ hm) rfl
  have h6 : '|' ∉ hexEncode payload := fun hm => (mem_hexEncode_ne_bar hp hm) rfl
  rw [deserializeChunk, serializeChunk]
  simp only [List.cons_append, List.append_assoc]
  rw [splitOnDelim_append_delim h1, splitOnDelim_append_delim h2,
    splitOnDelim_append_delim h3, splitOnDelim_append_delim h4,
    splitOnDelim_append_delim h5, splitOnDelim_of_not_mem h6]
  simp only [if_pos rfl, hexDecode_hexEncode hid, hexDecode_hexEncode hp,
    charsToNat_natToChars]
  simp

theorem length_le_chunkCount_mul (totalLength blockSize : Nat)
    (hbs : 0 < blockSize) :
    totalLength ≤ chunkCount totalLength blockSize * blockSize := by
  have h1 := Nat.div_add_mod (totalLength + blockSize - 1) blockSize
  have h2 : (totalLength + blockSize - 1) % blockSize < blockSize :=
    Nat.mod_lt _ hbs
  have h5 : blockSize * ((totalLength + blockSize - 1) / blockSize) =
      ((totalLength + blockSize - 1) / blockSize) * blockSize := Nat.mul_comm _ _
  have hq : totalLength ≤ ((totalLength + blockSize - 1) / blockSize) * blockSize := by
    omega
  calc totalLength ≤ ((totalLength + blockSize - 1) / blockSize) * blockSize := hq
    _ ≤ chunkCount totalLength blockSize * blockSize :=
      Nat.mul_le_mul_right _ (Nat.le_max_right 1 _)

theorem flatten_range_take (bs : Nat) (n : Nat) :
    ∀ (l : List Nat), l.length ≤ n * bs →
    ((List.range n).map (fun i => (l.drop (i * bs)).take bs)).flatten = l := by
  induction n with
  | zero =>
    intro l hl
    simp only [Nat.zero_mul, Nat.le_zero, List.length_eq_zero] at hl
    simp [hl]
  | succ n ih =>
    intro l hl
    rw [Nat.succ_mul] at hl
    rw [List.range_succ_eq_map, List.map_cons, List.map_map, List.flatten_cons]
    have hmap : (List.range n).map ((fun i => (l.drop (i * bs)).take bs) ∘ Nat.succ) =
        (List.range n).map (fun i => ((l.drop bs).drop (i * bs)).take bs) := by
      apply List.map_congr_left
      intro i _
      simp only [Function.comp_apply, List.drop_drop]
      congr 2
      rw [Nat.succ_mul]
      omega
    rw [hmap, ih (l.drop bs) (by simp only [List.length_drop]; omega)]
    simp only [Nat.zero_mul, List.drop_zero]
    exact List.take_append_drop bs l

theorem flatten_splitChunks (data : List Nat) (blockSize : Nat)
    (hbs : 0 < blockSize) :
    ((splitChunks data blockSize).map Prod.snd).flatten = data := by
  rw [splitChunks, List.map_map]
  exact flatten_range_take blockSize _ data
    (length_le_chunkCount_mul data.length blockSize hbs)

theorem Manifest.matches_self (m : Manifest) : m.matches m = true := by
  simp [Manifest.matches]

theorem lookup_cons_self (r : List (Nat × List Nat)) (i : Nat) (p : List Nat) :
    ((i, p) :: r).lookup i = some p := by
  simp [List.lookup]

theorem lookup_cons_ne (r : List (Nat × List Nat)) (i j : Nat) (p : List Nat)
    (h : j ≠ i) : ((i, p) :: r).lookup j = r.lookup j := by
  simp only [List.lookup, beq_eq_false_iff_ne.mpr h]

theorem ingestAll_cons (ps : PaperStorage) (t : List Char)
    (ts : List (List Char)) :
    ps.ingestAll (t :: ts) = (ps.restoreFromQRString t).1.ingestAll ts := rfl

theorem ingest_own_serialized (M : Manifest) (idx : Nat) (payload : List Nat)
    (ps : PaperStorage) (hps : ps.manifest = some M)
    (hid : ∀ b ∈ M.identifier, b < 256)
    (hp : ∀ b ∈ payload, b < 256)
    (hh : ∀ c ∈ M.contentHash, c ≠ '|') :
    ((ps.restoreFromQRString (serializeChunk M idx payload)).1.manifest = some M) ∧
    ((ps.restoreFromQRString (serializeChunk M idx payload)).1.received.lookup idx
      = some payload) ∧
    (∀ j, j ≠ idx →
      (ps.restoreFromQRString (serializeChunk M idx payload)).1.received.lookup j
      = ps.received.lookup j) := by
  rw [PaperStorage.restoreFromQRString,
    deserializeChunk_serializeChunk M idx payload hid hp hh, hps]
  simp only [Manifest.matches_self, if_true]
  by_cases hdup : ps.received.lookup idx = some payload
  · rw [if_pos hdup]
    exact ⟨hps, hdup, fun j _ => rfl⟩
  · rw [if_neg hdup]
    exact ⟨rfl, lookup_cons_self _ _ _, fun j hj => lookup_cons_ne _ _ _ _ hj⟩

theorem ingestAll_own_serialized (M : Manifest)
    (hid : ∀ b ∈ M.identifier, b < 256)
    (hh : ∀ c ∈ M.contentHash, c ≠ '|') :
    ∀ (L : List (Nat × List Nat)) (ps : PaperStorage),
    ps.manifest = some M →
    (∀ ip ∈ L, ∀ b ∈ ip.2, b < 256) →
    (L.map Prod.fst).Nodup →
    ((ps.ingestAll (L.map (fun ip => serializeChunk M ip.1 ip.2))).manifest
      = some M) ∧
    (∀ ip ∈ L,
      (ps.ingestAll (L.map (fun ip => serializeChunk M ip.1 ip.2))).received.lookup ip.1
      = some ip.2) ∧
    (∀ j, j ∉ L.map Prod.fst →
      (ps.ingestAll (L.map (fun ip => serializeChunk M ip.1 ip.2))).received.lookup j
      = ps.received.lookup j) := by
  intro L
  induction L with
  | nil =>
    intro ps hps _ _
    exact ⟨hps, by simp, fun j _ => rfl⟩
  | cons hd rest ih =>
    intro ps hps hbytes hnodup
    obtain ⟨i, p⟩ := hd
    obtain ⟨hm1, hl1, hpres1⟩ := ingest_own_serialized M i p ps hps hid
      (hbytes (i, p) (List.mem_cons_self _ _)) hh
    simp only [List.map_cons, List.nodup_cons] at hnodup
    obtain ⟨hm2, hl2, hpres2⟩ :=
      ih ((ps.restoreFromQRString (serializeChunk M i p)).1) hm1
        (fun x hx => hbytes x (List.mem_cons_of_mem _ hx)) hnodup.2
    simp only [List.map_cons, ingestAll_cons]
    refine ⟨hm2, ?_, ?_⟩
    · intro jp hjp
      rcases List.mem_cons.mp hjp with h | hjp
      · subst h
        rw [hpres2 i hnodup.1]
        exact hl1
      · exact hl2 jp hjp
    · intro j hj
      simp only [List.mem_cons] at hj
      push_neg at hj
      rw [hpres2 j hj.2]
      exact hpres1 j hj.1

theorem ingest_first_serialized (M : Manifest) (idx : Nat) (payload : List Nat)
    (hid : ∀ b ∈ M.identifier, b < 256)
    (hp : ∀ b ∈ payload, b < 256)
    (hh : ∀ c ∈ M.contentHash, c ≠ '|') :
    (PaperStorage.init.restoreFromQRString (serializeChunk M idx payload)).1 =
      ⟨some M, [(idx, payload)]⟩ := by
  rw [PaperStorage.restoreFromQRString,
    deserializeChunk_serializeChunk M idx payload hid hp hh]
  rfl

theorem reconstruct_lookup (data identifier : List Nat) (bs : Nat)
    (hdata : ∀ b ∈ data, b < 256) (hid : ∀ b ∈ identifier, b < 256) :
    ((PaperStorage.init.ingestAll (encodeAll data identifier bs)).manifest
      = some (manifestFromData data identifier bs)) ∧
    ∀ i, i < chunkCount data.length bs →
      (PaperStorage.init.ingestAll (encodeAll data identifier bs)).received.lookup i
        = some ((data.drop (i * bs)).take bs) := by
  have hh : ∀ c ∈ (manifestFromData data identifier bs).contentHash, c ≠ '|' :=
    fun c hc => sha256hex_ne_bar data hc
  have hidM : ∀ b ∈ (manifestFromData data identifier bs).identifier, b < 256 := hid
  have hcount : 1 ≤ chunkCount data.length bs := Nat.le_max_left _ _
  obtain ⟨m, hm⟩ : ∃ m, chunkCount data.length bs = m + 1 :=
    ⟨chunkCount data.length bs - 1, by omega⟩
  have hsplit : encodeAll data identifier bs =
      serializeChunk (manifestFromData data identifier bs) 0 (data.take bs) ::
      (((List.range m).map
          (fun i => (i + 1, (data.drop ((i + 1) * bs)).take bs))).map
        (fun ip => serializeChunk (manifestFromData data identifier bs) ip.1 ip.2)) := by
    rw [encodeAll, splitChunks, hm, List.range_succ_eq_map, List.map_cons,
      List.map_cons, List.map_map, List.map_map]
    simp [Function.comp_def, Nat.succ_eq_add_one]
  have hp0 : ∀ b ∈ data.take bs, b < 256 :=
    fun b hb => hdata b (List.take_subset _ _ hb)
  have hbytes : ∀ ip ∈ (List.range m).map
      (fun i => (i + 1, (data.drop ((i + 1) * bs)).take bs)),
      ∀ b ∈ ip.2, b < 256 := by
    intro ip hip b hb
    obtain ⟨i, _, rfl⟩ := List.mem_map.mp hip
    exact hdata b (List.drop_subset _ _ (List.take_subset _ _ hb))
  have hnodup : (((List.range m).map
      (fun i => (i + 1, (data.drop ((i + 1) * bs)).take bs))).map Prod.fst).Nodup := by
    rw [List.map_map]
    have : (Prod.fst ∘ fun i => ((i + 1 : Nat), (data.drop ((i + 1) * bs)).take bs)) =
        (fun i => i + 1) := rfl
    rw [this]
    exact List.Nodup.map (fun a b hab => by omega) (List.nodup_range m)
  obtain ⟨hman, hmem, hpres⟩ :=
    ingestAll_own_serialized (manifestFromData data identifier bs) hidM hh
      ((List.range m).map (fun i => (i + 1, (data.drop ((i + 1) * bs)).take bs)))
      ⟨some (manifestFromData data identifier bs), [(0, data.take bs)]⟩
      rfl hbytes hnodup
  have hstart : PaperStorage.init.ingestAll (encodeAll data identifier bs) =
      (PaperStorage.mk (some (manifestFromData data identifier bs))
        [(0, data.take bs)]).ingestAll
        (((List.range m).map
            (fun i => (i + 1, (data.drop ((i + 1) * bs)).take bs))).map
          (fun ip => serializeChunk (manifestFromData data identifier bs) ip.1 ip.2)) := by
    rw [hsplit, ingestAll_cons, ingest_first_serialized _ _ _ hidM hp0 hh]
  rw [hstart]
  refine ⟨hman, ?_⟩
  intro i hi
  rw [hm] at hi
  match i, hi with
  | 0, _ =>
    rw [hpres 0 ?_]
    · simp only [Nat.zero_mul, List.drop_zero]
      exact lookup_cons_self _ _ _
    · rw [List.map_map]
      intro hmem0
      obtain ⟨j, _, hj⟩ := List.mem_map.mp hmem0
      simp at hj
  | j + 1, hi =>
    exact hmem (j + 1, (data.drop ((j + 1) * bs)).take bs)
      (List.mem_map.mpr ⟨j, List.mem_range.mpr (by omega), rfl⟩)

theorem isDataReady_of_lookup (s : PaperStorage) (M : Manifest)
    (payload : Nat → List Nat) (hman : s.manifest = some M)
    (h : ∀ i, i < M.chunkCount → s.received.lookup i = some (payload i)) :
    s.isDataReady = true := by
  rw [PaperStorage.isDataReady, hman]
  rw [List.all_eq_true]
  intro i hi
  rw [h i (List.mem_range.mp hi)]
  rfl

theorem getData_of_lookup (s : PaperStorage) (M : Manifest)
    (payload : Nat → List Nat) (hman : s.manifest = some M)
    (h : ∀ i, i < M.chunkCount → s.received.lookup i = some (payload i)) :
    s.getData = some ((List.range M.chunkCount).map payload).flatten := by
  have hready := isDataReady_of_lookup s M payload hman h
  rw [PaperStorage.getData, hman]
  simp only [hready, if_true]
  congr 1
  congr 1
  apply List.map_congr_left
  intro i hi
  rw [h i (List.mem_range.mp hi)]
  rfl

theorem ingestAll_append (ps : PaperStorage) (xs ys : List (List Char)) :
    ps.ingestAll (xs ++ ys) = (ps.ingestAll xs).ingestAll ys := by
  simp [PaperStorage.ingestAll, List.foldl_append]

theorem restoreFromFolderEntry_eq_ingestAll (s : PaperStorage) (e : FolderEntry) :
    restoreFromFolderEntry s e = s.ingestAll (decodeEntry e) := by
  cases e <;> rfl

theorem lookup_isSome_restore (ps : PaperStorage) (t : List Char) (i : Nat)
    (h : (ps.received.lookup i).isSome = true) :
    ((ps.restoreFromQRString t).1.received.lookup i).isSome = true := by
  rw [PaperStorage.restoreFromQRString]
  cases hdes : deserializeChunk t with
  | none => exact h
  | some v =>
    obtain ⟨m, idx, payload⟩ := v
    cases hman : ps.manifest with
    | none =>
      by_cases hi : i = idx
      · subst hi
        simp only [lookup_cons_self, Option.isSome_some]
      · simp only [lookup_cons_ne _ _ _ _ hi]
        exact h
    | some m0 =>
      dsimp only
      by_cases hmatch : m0.matches m = true
      · rw [if_pos hmatch]
        by_cases hdup : ps.received.lookup idx = some payload
        · rw [if_pos hdup]
          exact h
        · rw [if_neg hdup]
          by_cases hi : i = idx
          · subst hi
            simp only [lookup_cons_self, Option.isSome_some]
          · simp only [lookup_cons_ne _ _ _ _ hi]
            exact h
      · rw [if_neg hmatch]
        exact h

theorem lookup_isSome_ingestAll (ts : List (List Char)) :
    ∀ (ps : PaperStorage) (i : Nat), (ps.received.lookup i).isSome = true →
    ((ps.ingestAll ts).received.lookup i).isSome = true := by
  induction ts with
  | nil => exact fun ps i h => h
  | cons t rest ih =>
    intro ps i h
    rw [ingestAll_cons]
    exact ih _ i (lookup_isSome_restore ps t i h)

/-- C1: for every byte buffer and every valid chunk size, splitting the
buffer into chunks, serializing every chunk, ingesting all the resulting
strings into a fresh reconstruction session and assembling returns exactly
the original buffer, and `verify` on the assembled buffer succeeds. -/
theorem roundTrip_reconstructs_and_verifies (data identifier : List Nat)
    (bs : Nat) (hbs : validBlockSize bs = true)
    (hdata : ∀ b ∈ data, b < 256) (hid : ∀ b ∈ identifier, b < 256) :
    (PaperStorage.init.ingestAll (encodeAll data identifier bs)).getData
      = some data ∧
    (PaperStorage.init.ingestAll (encodeAll data identifier bs)).verify data
      = true := by
  have hbs0 : 0 < bs := by
    rw [validBlockSize] at hbs
    simp only [Bool.and_eq_true, decide_eq_true_eq] at hbs
    omega
  obtain ⟨hman, hlook⟩ := reconstruct_lookup data identifier bs hdata hid
  constructor
  · rw [getData_of_lookup _ _ (fun i => (data.drop (i * bs)).take bs) hman hlook]
    exact congrArg some
      (flatten_range_take bs _ data (length_le_chunkCount_mul _ _ hbs0))
  · rw [PaperStorage.verify, hman]
    simp [manifestFromData]

theorem roundTrip_reconstructs_and_verifies_witness :
    validBlockSize 50 = true ∧
    (PaperStorage.init.ingestAll (encodeAll [104, 105, 33] [80] 50)).getData
      = some [104, 105, 33] ∧
    (PaperStorage.init.ingestAll (encodeAll [104, 105, 33] [80] 50)).verify
      [104, 105, 33] = true :=
  ⟨by decide,
   (roundTrip_reconstructs_and_verifies [104, 105, 33] [80] 50 (by decide)
     (by decide) (by decide)).1,
   (roundTrip_reconstructs_and_verifies [104, 105, 33] [80] 50 (by decide)
     (by decide) (by decide)).2⟩

/-- C2 counterexample: on a fresh session, whose manifest is not yet fixed,
`getMissingDataBlocks` returns the ordinary empty sequence — there is no
distinct "unknown" sentinel state, contrary to the claim. -/
theorem getMissingDataBlocks_init_eq_nil :
    PaperStorage.init.getMissingDataBlocks = ([] : List Nat) := rfl

/-- C2 amended: when the manifest is unset, `getMissingDataBlocks` returns
the empty list — the same value as "none missing" — and the interactive flow
disambiguates the two cases by checking `isDataReady` first: not ready with
an empty missing list is reported as "No valid QR-Codes found" and quits. -/
theorem missing_blocks_unset_collapsed_flow_disambiguates (ps : PaperStorage)
    (h : ps.manifest = none) :
    ps.getMissingDataBlocks = [] ∧ ps.isDataReady = false ∧
    interactiveLoopStep ps = .quitNoValidCodes := by
  have h1 : ps.getMissingDataBlocks = [] := by
    rw [PaperStorage.getMissingDataBlocks, h]
  have h2 : ps.isDataReady = false := by
    rw [PaperStorage.isDataReady, h]
  refine ⟨h1, h2, ?_⟩
  rw [interactiveLoopStep, h2, h1]
  simp

theorem missing_blocks_unset_collapsed_flow_disambiguates_witness :
    PaperStorage.init.getMissingDataBlocks = [] ∧
    PaperStorage.init.isDataReady = false ∧
    interactiveLoopStep PaperStorage.init = .quitNoValidCodes :=
  missing_blocks_unset_collapsed_flow_disambiguates PaperStorage.init rfl

/-- C3: when the stored digest does not match the recomputed digest of the
assembled buffer, the save step surfaces the hash-mismatch warning yet still
writes the assembled buffer to the chosen output file. -/
theorem hash_mismatch_nonfatal (sha256Stored : List Char) (data : List Nat)
    (h : sha256Stored ≠ sha256hex data) :
    (interactiveFinish sha256Stored data true).hashWarning = true ∧
    (interactiveFinish sha256Stored data true).written = some data := by
  constructor
  · simp [interactiveFinish, h]
  · rfl

theorem hash_mismatch_nonfatal_witness :
    (interactiveFinish [] [] true).hashWarning = true ∧
    (interactiveFinish [] [] true).written = some [] :=
  hash_mismatch_nonfatal [] []
    (fun heq => by
      have hlen := congrArg List.length heq
      rw [sha256hex_length] at hlen
      simp at hlen)

/-- C4: verification recomputes the SHA-256 digest of the complete assembled
byte stream — a 256-bit digest, 64 hex characters — and succeeds exactly when
it equals the manifest's stored content hash. -/
theorem verify_iff_digest_eq (ps : PaperStorage) (M : Manifest)
    (data : List Nat) (hman : ps.manifest = some M) :
    (ps.verify data = true ↔ sha256hex data = M.contentHash) ∧
    (sha256hex data).length = 64 := by
  constructor
  · rw [PaperStorage.verify, hman]
    simp
  · exact sha256hex_length data

theorem verify_iff_digest_eq_witness :
    ((PaperStorage.mk (some ⟨[], [], 1⟩) []).verify [] = true ↔
      sha256hex [] = ([] : List Char)) ∧
    (sha256hex ([] : List Nat)).length = 64 :=
  verify_iff_digest_eq (PaperStorage.mk (some ⟨[], [], 1⟩) []) ⟨[], [], 1⟩ [] rfl

/-- C5: every missing chunk index `n` is named in the rescan message as page
`n + 2` — the cover page is position 1 and chunk `n` occupies position
`n + 2` — position for position and for every member. -/
theorem rescan_message_page_offset (missing : List Nat) :
    (∀ i : Nat, (rescanPageStrings missing)[i]? =
      (missing[i]?).map (fun n => natToChars (pagePositionOfChunk n))) ∧
    (∀ n ∈ missing,
      natToChars (pagePositionOfChunk n) ∈ rescanPageStrings missing) := by
  constructor
  · intro i
    simp [rescanPageStrings, pagePositionOfChunk, List.getElem?_map]
  · intro n hn
    exact List.mem_map_of_mem _ hn

theorem rescan_message_page_offset_witness :
    natToChars (pagePositionOfChunk 5) ∈ rescanPageStrings [3, 5] :=
  (rescan_message_page_offset [3, 5]).2 5 (by decide)

/-- C6: the blocksize accepted by the encode CLI is exactly the fixed set of
multiples of 50 between 50 and 1500 inclusive, and the default is 1500,
itself an accepted value. -/
theorem blocksize_choices_spec :
    (∀ b : Int, b ∈ blocksizeChoices ↔ (50 ≤ b ∧ b ≤ 1500 ∧ b % 50 = 0)) ∧
    blocksizeDefault = 1500 ∧ blocksizeDefault ∈ blocksizeChoices := by
  have h30 : ((1501 - 50 + 50 - 1 : Int) / 50).toNat = 30 := by decide
  have hchar : ∀ b : Int, b ∈ blocksizeChoices ↔
      ∃ k : Nat, k < 30 ∧ b = 50 + 50 * (k : Int) := by
    intro b
    rw [blocksizeChoices, pythonRange, h30]
    constructor
    · intro hb
      obtain ⟨k, hk, hkb⟩ := List.mem_map.mp hb
      exact ⟨k, List.mem_range.mp hk, hkb.symm⟩
    · rintro ⟨k, hk, rfl⟩
      exact List.mem_map.mpr ⟨k, List.mem_range.mpr hk, rfl⟩
  refine ⟨?_, by decide, ?_⟩
  · intro b
    rw [hchar b]
    constructor
    · rintro ⟨k, hk, rfl⟩
      omega
    · rintro ⟨h1, h2, h3⟩
      exact ⟨((b - 50) / 50).toNat, by omega, by omega⟩
  · rw [hchar]
    exact ⟨29, by norm_num, by decide⟩

/-- C7: folder restore performs exactly one ingest call per decoded code
string, in order — it equals ingesting the concatenation of every entry's
decoded strings — and an entry that yields no decoded payloads (a non-file,
an unreadable image, or an image with no recognized codes) leaves the
session unchanged, without error. -/
theorem folder_restore_ingests_decoded (entries : List FolderEntry)
    (ps : PaperStorage) :
    restoreFromFolder (some ps) entries =
      ps.ingestAll (entries.flatMap decodeEntry) ∧
    (∀ e : FolderEntry, decodeEntry e = [] →
      restoreFromFolder (some ps) [e] = ps) := by
  constructor
  · induction entries generalizing ps with
    | nil => rfl
    | cons e rest ih =>
      show List.foldl restoreFromFolderEntry (restoreFromFolderEntry ps e) rest = _
      rw [List.flatMap_cons, ingestAll_append,
        ← restoreFromFolderEntry_eq_ingestAll]
      exact ih (restoreFromFolderEntry ps e)
  · intro e he
    show restoreFromFolderEntry ps e = ps
    rw [restoreFromFolderEntry_eq_ingestAll, he]
    rfl

theorem folder_restore_ingests_decoded_witness :
    restoreFromFolder (some PaperStorage.init) [FolderEntry.notAnImage] =
      PaperStorage.init :=
  (folder_restore_ingests_decoded [FolderEntry.notAnImage]
    PaperStorage.init).2 FolderEntry.notAnImage rfl

/-- C8: received chunks persist for the session's lifetime: an index present
in `received` is still present after any further folder-restore round feeds
more input into the same session object. -/
theorem received_persists_across_rounds (ps : PaperStorage)
    (entries : List FolderEntry) (i : Nat)
    (h : (ps.received.lookup i).isSome = true) :
    ((restoreFromFolder (some ps) entries).received.lookup i).isSome = true := by
  induction entries generalizing ps with
  | nil => exact h
  | cons e rest ih =>
    show ((List.foldl restoreFromFolderEntry
      (restoreFromFolderEntry ps e) rest).received.lookup i).isSome = true
    apply ih
    cases e with
    | notAFile => exact h
    | notAnImage => exact h
    | image codes => exact lookup_isSome_ingestAll codes ps i h

theorem received_persists_across_rounds_witness :
    (((restoreFromFolder (some (PaperStorage.mk none [(0, [7])]))
      [FolderEntry.image [[]]]).received.lookup 0).isSome = true) :=
  received_persists_across_rounds (PaperStorage.mk none [(0, [7])])
    [FolderEntry.image [[]]] 0 (by decide)

/-- C9: selecting menu choice 2, and answering no to the scanner and
smartphone questions but yes to the webcam question in the guided flow of
choice 3, both raise `NotImplementedError`, terminating the restore flow. -/
theorem webcam_paths_raise_notImplemented
    (scanner smartphone webcam : List Char) :
    menuDispatch 2 scanner smartphone webcam = .raiseNotImplemented ∧
    menuDispatch 3 ['n', 'o'] ['n', 'o'] ['y', 'e', 's']
      = .raiseNotImplemented := by
  constructor
  · rfl
  · rfl

/-- C10: the filename prompt loop exits after its first iteration whatever
the open result and whatever further inputs would be available — a failed
open is never re-prompted — and the subsequent write happens exactly when
that single open succeeded, there being no bound file handle otherwise. -/
theorem filename_loop_single_iteration (openOk : Bool) (rest : List Bool)
    (data : List Nat) :
    savePromptLoop (openOk :: rest)
      = (1, some (if openOk then some () else none)) ∧
    writeAfterLoop (if openOk then some () else none) data
      = (if openOk then some data else none) := by
  constructor
  · rfl
  · cases openOk <;> rfl

end Paperstorage
